import Mathlib

/-!
Verification of the godenticon identicon generator.

This file gives a shallow embedding of the repository's core pipeline
(`avatar/avatar.go`, `avatar/algorithms.go`, `avatar/constants.go`) and
proves the specified properties about it.

Modelling conventions:
* Machine integers (`uint8`, `uint32`, Go `int`) are modelled as `Nat`
  (or `Int` for the enum-like `Algorithm` and `Output` types), with
  explicit `% 256` where `uint8` arithmetic wraps.
* `image.RGBA` is modelled as a square pixel array with the bounds
  semantics of the Go standard library: `Set` outside the bounds is a
  no-op and `At` outside the bounds returns the zero `color.RGBA{}`.
  All loop indices in the source are non-negative, so `Nat` coordinates
  are faithful.
* The process-wide `math/rand` generator is modelled as an explicit
  state: a stream of booleans (the successive outcomes of the
  `rand.Float64() < 0.5` comparisons, which are a deterministic
  function of the seed) together with a position.  `rand.Seed` replaces
  the whole state; the seed-to-stream map of the generator is an
  arbitrary parameter `streamOf`.
* `crypto/sha256` is Go standard library code; the 32-byte digest of
  `av.value` is passed to `GenerateAvatar` as the input `hash`.  The
  digest is a pure function of the value, so properties quantified over
  all digests cover all input strings.
* `png.Encode` (standard library) is modelled as a deterministic
  serialization that fails exactly when the image has a zero dimension,
  which is the `"invalid image size"` check of Go's PNG writer.
* `golang.org/x/image/draw.NearestNeighbor.Scale` is modelled by its
  nearest-neighbour kernel `sx = (2*dx+1)*sw / (2*dw)` (integer
  division); drawing with `draw.Over` onto a freshly allocated
  all-zero destination reproduces the source pixel values.
* Filesystem writes are modelled as an effect list; `os.Create`
  success/failure is an explicit environment parameter `fs`.
-/

/-- An RGBA color value, the model of Go's `color.RGBA` (four 8-bit
channels). -/
structure Rgba where
  r : Nat
  g : Nat
  b : Nat
  a : Nat
deriving DecidableEq, Repr

/-- The zero `color.RGBA{}` value returned by `At` on out-of-bounds
coordinates. -/
def zeroColor : Rgba := ⟨0, 0, 0, 0⟩

/-- `color.Black` as stored into an `image.RGBA` (conversion of
`Gray16{0}` by the RGBA color model): opaque black. -/
def colorBlack : Rgba := ⟨0, 0, 0, 255⟩

/-- `color.White` as stored into an `image.RGBA` (conversion of
`Gray16{0xffff}` by the RGBA color model): opaque white. -/
def colorWhite : Rgba := ⟨255, 255, 255, 255⟩

/-- Model of Go's `image.RGBA`: a rectangle `Rect(0, 0, width, height)`
together with the pixel contents, kept as a total function so that
out-of-rectangle memory is observable (it must never be modified). -/
@[ext]
structure RGBAImage where
  width : Nat
  height : Nat
  pix : Nat → Nat → Rgba

/-- Go's `(*image.RGBA).At`: returns the pixel inside the bounds and
the zero `color.RGBA{}` outside them. -/
def RGBAImage.At (img : RGBAImage) (x y : Nat) : Rgba :=
  if x < img.width ∧ y < img.height then img.pix x y else zeroColor

/-- Go's `(*image.RGBA).Set`: writes the pixel inside the bounds and
does nothing outside them. -/
def RGBAImage.Set (img : RGBAImage) (x y : Nat) (c : Rgba) : RGBAImage :=
  if x < img.width ∧ y < img.height then
    ⟨img.width, img.height, fun u v => if u = x ∧ v = y then c else img.pix u v⟩
  else img

/-- `image.NewRGBA(image.Rect(0, 0, n, n))`: a fresh square image with
all pixel memory zeroed. -/
def newRGBA (n : Nat) : RGBAImage := ⟨n, n, fun _ _ => zeroColor⟩

/-- The state of the process-wide `math/rand` generator: the stream of
future `rand.Float64() < 0.5` outcomes and the number of draws already
consumed. -/
structure RandState where
  stream : Nat → Bool
  pos : Nat

/-- One `rand.Float64() < 0.5` draw from the global generator. -/
def randDraw (r : RandState) : Bool × RandState :=
  (r.stream r.pos, ⟨r.stream, r.pos + 1⟩)

/-- `rand.Seed(seed)`: the global generator state is replaced by the
stream determined by the seed (given by the generator's seed-to-stream
map `streamOf`), positioned at its start. -/
def randSeed (streamOf : Nat → Nat → Bool) (seed : Nat) : RandState :=
  ⟨streamOf seed, 0⟩

/-- `getBackgroundColor` from `avatar/algorithms.go`: opaque black in
dark mode, opaque white otherwise. -/
def getBackgroundColor (darkMode : Bool) : Rgba :=
  if darkMode then colorBlack else colorWhite

/-- The body of the inner (column) loop of `algorithm_one` at row `y`,
column `x`.  Note the source writes `image.Set(y, x, …)`: the loop's
row variable is passed as the first (x) coordinate of `Set`. -/
def algOneCell (size : Nat) (colorToFill : Rgba) (darkMode : Bool) (y : Nat)
    (st : RGBAImage × RandState) (x : Nat) : RGBAImage × RandState :=
  if y ≤ size / 2 then
    let d := randDraw st.2
    (st.1.Set y x (if d.1 then colorToFill else getBackgroundColor darkMode), d.2)
  else
    (st.1.Set y x (st.1.At (size - y - 1) x), st.2)

/-- The inner (column) loop of `algorithm_one`: `x` runs from
`bounds.Min.X = 0` to `bounds.Max.X - 1 = w - 1`. -/
def algOneRow (w size : Nat) (colorToFill : Rgba) (darkMode : Bool)
    (st : RGBAImage × RandState) (y : Nat) : RGBAImage × RandState :=
  (List.range w).foldl (algOneCell size colorToFill darkMode y) st

/-- `algorithm_one` from `avatar/algorithms.go` ("descend-mirror"):
rows `y` from `0` to `bounds.Max.Y - 1`; rows with `y ≤ size/2` draw a
random fill-or-background pixel per column, later rows copy
`image.At(size-y-1, x)`.  The global generator state is threaded
explicitly. -/
def algorithm_one (img : RGBAImage) (size : Nat) (colorToFill : Rgba)
    (darkMode : Bool) (r : RandState) : RGBAImage × RandState :=
  (List.range img.height).foldl (algOneRow img.width size colorToFill darkMode) (img, r)

/-- The body of the inner (column) loop of `algorithm_two` at row `y`,
column `x`: columns with `x ≤ size/2` draw, later columns copy
`image.At(size-x-1, y)`. -/
def algTwoCell (size : Nat) (colorToFill : Rgba) (darkMode : Bool) (y : Nat)
    (st : RGBAImage × RandState) (x : Nat) : RGBAImage × RandState :=
  if x ≤ size / 2 then
    let d := randDraw st.2
    (st.1.Set x y (if d.1 then colorToFill else getBackgroundColor darkMode), d.2)
  else
    (st.1.Set x y (st.1.At (size - x - 1) y), st.2)

/-- The inner (column) loop of `algorithm_two`. -/
def algTwoRow (w size : Nat) (colorToFill : Rgba) (darkMode : Bool)
    (st : RGBAImage × RandState) (y : Nat) : RGBAImage × RandState :=
  (List.range w).foldl (algTwoCell size colorToFill darkMode y) st

/-- `algorithm_two` from `avatar/algorithms.go` ("ascend-mirror"): the
row loop is `for y := bounds.Max.Y; y >= 0; y--`, i.e. it starts at
`y = height`, one past the last valid row, and runs down to `0`. -/
def algorithm_two (img : RGBAImage) (size : Nat) (colorToFill : Rgba)
    (darkMode : Bool) (r : RandState) : RGBAImage × RandState :=
  ((List.range (img.height + 1)).reverse).foldl
    (algTwoRow img.width size colorToFill darkMode) (img, r)

/-- `byteSum` from `avatar/avatar.go`: sums a byte slice in a `uint8`
accumulator, wrapping modulo 256 at every step. -/
def byteSum (data : List Nat) : Nat :=
  data.foldl (fun sum b => (sum + b) % 256) 0

/-- `binary.BigEndian.Uint32` on the first four digest bytes:
`uint32(b3) | uint32(b2)<<8 | uint32(b1)<<16 | uint32(b0)<<24`. -/
def bigEndianUint32 (b0 b1 b2 b3 : Nat) : Nat :=
  b3 ||| (b2 <<< 8) ||| (b1 <<< 16) ||| (b0 <<< 24)

/-- The seed derivation in `GenerateAvatar`:
`binary.BigEndian.Uint32(hash[:])` reads the first 4 digest bytes
big-endian. -/
def deriveSeed (hash : List Nat) : Nat :=
  bigEndianUint32 (hash.getD 0 0) (hash.getD 1 0) (hash.getD 2 0) (hash.getD 3 0)

/-- The color derivation in `GenerateAvatar`: each channel is
`uint8(uint64(byteSum(hash[8i : 8i+8])) % 256)` for the four 8-byte
digest windows, in the order R, G, B, A. -/
def deriveColor (hash : List Nat) : Rgba :=
  ⟨byteSum (hash.take 8) % 256,
   byteSum ((hash.drop 8).take 8) % 256,
   byteSum ((hash.drop 16).take 8) % 256,
   byteSum ((hash.drop 24).take 8) % 256⟩

/-- `scaleImage` from `avatar/avatar.go`: allocates a fresh
`dimension × dimension` destination and nearest-neighbour scales the
base image into it with `draw.Over`.  The destination starts all-zero,
so `Over` reproduces the source pixel; the nearest-neighbour kernel of
`golang.org/x/image/draw` picks source pixel
`sx = (2*dx+1)*sw / (2*dw)`, `sy = (2*dy+1)*sh / (2*dh)`. -/
def scaleImage (src : RGBAImage) (dimension : Nat) : RGBAImage :=
  ⟨dimension, dimension, fun dx dy =>
    if dx < dimension ∧ dy < dimension then
      src.At ((2 * dx + 1) * src.width / (2 * dimension))
             ((2 * dy + 1) * src.height / (2 * dimension))
    else zeroColor⟩

/-- Model of `png.Encode`: Go's PNG writer rejects an image whose
width or height is zero (`"invalid image size"`) and otherwise
deterministically serializes the pixels.  The byte serialization is
modelled as the row-major channel dump. -/
def pngEncode (img : RGBAImage) : Option (List Nat) :=
  if img.width = 0 ∨ img.height = 0 then none
  else some ((List.range img.height).flatMap (fun y =>
    (List.range img.width).flatMap (fun x =>
      [(img.At x y).r, (img.At x y).g, (img.At x y).b, (img.At x y).a])))

/-- `defaultFileName` from `avatar/constants.go`. -/
def defaultFileName : String := "avatar.png"

/-- `filepath.Join(dir, name)` for the clean paths used here. -/
def joinPath (dir name : String) : String :=
  if dir = "" then name else dir ++ "/" ++ name

/-- The failures `GenerateAvatar` can produce.  `nilAlgoPanic` marks
the run-time panic from invoking the nil executor that
`algoExecutorMap` yields for an unknown algorithm identifier (a Go
panic, not a returned error). -/
inductive GenError where
  | errUnknownOutputType
  | pngSizeError
  | ioError
  | nilAlgoPanic
deriving DecidableEq, Repr

/-- Whether an error is one of the configuration errors the library
returns eagerly; `ErrUnknownOutputType` is the only such value in the
source. -/
def GenError.isConfigError : GenError → Bool
  | .errUnknownOutputType => true
  | _ => false

/-- `AvatarResult` from `avatar/avatar.go`: `Path` is empty for buffer
output and `Buffer` is nil (`none`) for file output. -/
structure AvatarResult where
  path : String
  buffer : Option (List Nat)
deriving DecidableEq, Repr

/-- The `Avatar` configuration record.  `algo` and `outputType` are Go
`int`-based enum types (`ALGORITHM_1 = 0`, `ALGORITHM_2 = 1`,
`OUTPUT_FILE = 0`, `OUTPUT_BUFFER = 1`); any `Int` value can be stored
in them. -/
structure Avatar where
  value : String
  path : String
  patternSize : Nat
  algo : Int
  darkMode : Bool
  outputType : Int
  dimension : Nat
deriving DecidableEq, Repr

/-- `New` from `avatar/avatar.go`: builds the default configuration
(pattern size 5, `ALGORITHM_1`, `OUTPUT_FILE`, dimension 100) and then
applies the options in order.  No validation is performed. -/
def New (value : String) (opts : List (Avatar → Avatar)) : Avatar :=
  opts.foldl (fun a opt => opt a)
    { value := value, path := "", patternSize := 5, algo := 0,
      darkMode := false, outputType := 0, dimension := 100 }

/-- `WithPatternSize`. -/
def WithPatternSize (size : Nat) : Avatar → Avatar :=
  fun a => { a with patternSize := size }

/-- `WithOutputDir` (the `ensurePath` directory creation it performs at
option-construction time is a filesystem effect outside the generation
pipeline). -/
def WithOutputDir (path : String) : Avatar → Avatar :=
  fun a => { a with path := path }

/-- `WithAlgorithm`: stores any identifier, valid or not. -/
def WithAlgorithm (algo : Int) : Avatar → Avatar :=
  fun a => { a with algo := algo }

/-- `WithDarkMode`. -/
def WithDarkMode : Avatar → Avatar :=
  fun a => { a with darkMode := true }

/-- `WithOutputType`. -/
def WithOutputType (outputType : Int) : Avatar → Avatar :=
  fun a => { a with outputType := outputType }

/-- `WithDimension`. -/
def WithDimension (dimension : Nat) : Avatar → Avatar :=
  fun a => { a with dimension := dimension }

/-- The type of the pattern-fill executors stored in
`algoExecutorMap`. -/
abbrev AlgoFunc :=
  RGBAImage → Nat → Rgba → Bool → RandState → RGBAImage × RandState

/-- `algoExecutorMap` from `avatar/algorithms.go`: maps `ALGORITHM_1`
to `algorithm_one` and `ALGORITHM_2` to `algorithm_two`; a lookup of
any other identifier yields no executor (Go: the nil `algoFunc`). -/
def algoExecutorMap (algo : Int) : Option AlgoFunc :=
  if algo = 0 then some algorithm_one
  else if algo = 1 then some algorithm_two
  else none

/-- `applyAlgorithm`: looks the executor up mid-generation and invokes
it; `none` models the panic from calling the nil function obtained for
an unknown identifier. -/
def applyAlgorithm (algo : Int) (img : RGBAImage) (size : Nat)
    (colorToFill : Rgba) (darkMode : Bool) (r : RandState) :
    Option (RGBAImage × RandState) :=
  match algoExecutorMap algo with
  | some algoFunc => some (algoFunc img size colorToFill darkMode r)
  | none => none

/-- `GenerateAvatar` from `avatar/avatar.go`.
`hash` is the 32-byte SHA-256 digest of `av.value` (rederived
identically on every call); `streamOf` is the PRNG's seed-to-stream
map; `fs path` tells whether `os.Create(path)` and the subsequent
write succeed; `g` is the pre-call state of the process-wide
generator.  Returns the call outcome, the list of file writes
performed, and the post-call generator state. -/
def GenerateAvatar (streamOf : Nat → Nat → Bool) (fs : String → Bool)
    (av : Avatar) (hash : List Nat) (g : RandState) :
    Except GenError AvatarResult × List (String × List Nat) × RandState :=
  let seed := deriveSeed hash
  let r0 := randSeed streamOf seed
  let avatarColor := deriveColor hash
  let img0 := newRGBA av.patternSize
  match applyAlgorithm av.algo img0 av.patternSize avatarColor av.darkMode r0 with
  | none => (.error .nilAlgoPanic, [], r0)
  | some (img1, r1) =>
    let img2 := scaleImage img1 av.dimension
    match pngEncode img2 with
    | none => (.error .pngSizeError, [], r1)
    | some buf =>
      if av.outputType = 0 then
        let outputPath := joinPath av.path defaultFileName
        if fs outputPath then
          (.ok ⟨outputPath, none⟩, [(outputPath, buf)], r1)
        else (.error .ioError, [], r1)
      else if av.outputType = 1 then
        (.ok ⟨"", some buf⟩, [], r1)
      else
        (.error .errUnknownOutputType, [], r1)

/-- Closed form of the image produced by `algorithm_one` on a fresh
`n × n` image: the pixel with first coordinate `u ≤ n/2` holds the
draw taken at stream position `k + u*n + v`, and pixels with
`u > n/2` mirror `u ↦ n-1-u` in the first coordinate. -/
def algOneExpect (n : Nat) (cF bg : Rgba) (s : Nat → Bool) (k u v : Nat) : Rgba :=
  if u ≤ n / 2 then (if s (k + (u * n + v)) then cF else bg)
  else (if s (k + ((n - 1 - u) * n + v)) then cF else bg)

/-- Closed form of the image produced by `algorithm_two` on a fresh
`n × n` image: row `v` is processed `n - v` rows after the loop starts
at the out-of-bounds row `n`, each processed row consumes `n/2 + 1`
draws, and pixels with `u > n/2` mirror `u ↦ n-1-u` in the first
coordinate. -/
def algTwoExpect (n : Nat) (cF bg : Rgba) (s : Nat → Bool) (k u v : Nat) : Rgba :=
  if u ≤ n / 2 then (if s (k + ((n - v) * (n / 2 + 1) + u)) then cF else bg)
  else (if s (k + ((n - v) * (n / 2 + 1) + (n - 1 - u))) then cF else bg)

/-! ## Helper lemmas -/

/-- Folding bytes through the wrapping `uint8` accumulator computes the
sum modulo 256. -/
theorem byteSum_foldl (l : List Nat) : ∀ a : Nat,
    l.foldl (fun sum b => (sum + b) % 256) (a % 256) = (a + l.sum) % 256 := by
  induction l with
  | nil => intro a; simp
  | cons x xs ih =>
    intro a
    simp only [List.foldl_cons, List.sum_cons]
    rw [Nat.mod_add_mod, ih (a + x), Nat.add_assoc]

/-- `byteSum` equals the plain sum of the bytes modulo 256. -/
theorem byteSum_eq_sum_mod (l : List Nat) : byteSum l = l.sum % 256 := by
  have h := byteSum_foldl l 0
  simpa [byteSum] using h

/-- Bitwise-or with a shifted value is addition when the low value fits
below the shift. -/
theorem lor_shiftLeft_eq_add (a b k : Nat) (h : a < 2 ^ k) :
    a ||| (b <<< k) = b <<< k + a := by
  have hrw : b <<< k + a = 2 ^ k * b + a := by
    rw [Nat.shiftLeft_eq]; ring
  apply Nat.eq_of_testBit_eq
  intro i
  rw [hrw, Nat.testBit_mul_pow_two_add b h i]
  simp only [Nat.testBit_or, Nat.testBit_shiftLeft]
  by_cases hik : i < k
  · have : ¬ i ≥ k := by omega
    simp [hik, this]
  · have hk : k ≤ i := Nat.le_of_not_lt hik
    have ha : a.testBit i = false :=
      Nat.testBit_lt_two_pow (lt_of_lt_of_le h (Nat.pow_le_pow_right (by norm_num) hk))
    simp [hik, hk, ha]

/-- The big-endian extraction of four bytes as an arithmetic
polynomial. -/
theorem bigEndianUint32_eq (b0 b1 b2 b3 : Nat)
    (h0 : b0 < 256) (h1 : b1 < 256) (h2 : b2 < 256) (h3 : b3 < 256) :
    bigEndianUint32 b0 b1 b2 b3 = b0 * 16777216 + b1 * 65536 + b2 * 256 + b3 := by
  have e8 : b2 <<< 8 = b2 * 256 := by rw [Nat.shiftLeft_eq]
  have e16 : b1 <<< 16 = b1 * 65536 := by rw [Nat.shiftLeft_eq]
  have e24 : b0 <<< 24 = b0 * 16777216 := by rw [Nat.shiftLeft_eq]
  unfold bigEndianUint32
  rw [lor_shiftLeft_eq_add b3 b2 8 (by norm_num; omega)]
  rw [lor_shiftLeft_eq_add _ b1 16 (by rw [e8]; norm_num; omega)]
  rw [lor_shiftLeft_eq_add _ b0 24 (by rw [e8, e16]; norm_num; omega)]
  rw [e8, e16, e24]
  omega

/-! ## Claims -/

/-- C1: generation is a deterministic function of its inputs: the
result, the file writes and the post-call generator state are
independent of the pre-call state of the process-wide generator
(because `GenerateAvatar` reseeds it from the digest before drawing),
so two independent calls with identical inputs produce byte-identical
output. -/
theorem generateAvatar_deterministic (streamOf : Nat → Nat → Bool)
    (fs : String → Bool) (av : Avatar) (hash : List Nat) (g₁ g₂ : RandState) :
    GenerateAvatar streamOf fs av hash g₁ = GenerateAvatar streamOf fs av hash g₂ :=
  rfl

/-- C2: the seed is the big-endian `uint32` of the first four digest
bytes, and each RGBA channel is the sum of its 8-byte digest window
(bytes 0-7, 8-15, 16-23, 24-31 for R, G, B, A) modulo 256; both are
pure functions of the digest, hence of the input value. -/
theorem deriveSeed_deriveColor_spec (hash : List Nat)
    (hlen : hash.length = 32) (hbytes : ∀ b ∈ hash, b < 256) :
    deriveSeed hash =
      hash.getD 0 0 * 16777216 + hash.getD 1 0 * 65536 +
        hash.getD 2 0 * 256 + hash.getD 3 0
    ∧ deriveColor hash =
      ⟨(hash.take 8).sum % 256, ((hash.drop 8).take 8).sum % 256,
       ((hash.drop 16).take 8).sum % 256, ((hash.drop 24).take 8).sum % 256⟩ := by
  constructor
  · rcases hash with _ | ⟨b0, _ | ⟨b1, _ | ⟨b2, _ | ⟨b3, rest⟩⟩⟩⟩ <;> simp_all
    obtain ⟨hb0, hb1, hb2, hb3, -⟩ := hbytes
    simpa [deriveSeed] using bigEndianUint32_eq b0 b1 b2 b3 hb0 hb1 hb2 hb3
  · simp [deriveColor, byteSum_eq_sum_mod, Nat.mod_mod_of_dvd]

/-- C2 witness: the derivation evaluated on the concrete byte list
`[0, 1, …, 31]`. -/
theorem deriveSeed_deriveColor_spec_witness :
    deriveSeed (List.range 32) = 66051
    ∧ deriveColor (List.range 32) = ⟨28, 92, 156, 220⟩ := by
  obtain ⟨h1, h2⟩ := deriveSeed_deriveColor_spec (List.range 32) (by simp)
    (by intro b hb; have := List.mem_range.mp hb; omega)
  refine ⟨?_, ?_⟩
  · rw [h1]; decide
  · rw [h2]; decide

/-- C5: nearest-neighbour scaling of a 5×5 base image to 100×100
preserves the block structure: the scaled pixel at
`(100*i/5, 100*j/5)` equals the base pixel at `(i, j)`. -/
theorem scaleImage_block_structure (src : RGBAImage)
    (hw : src.width = 5) (hh : src.height = 5) (i j : Nat)
    (hi : i < 5) (hj : j < 5) :
    (scaleImage src 100).At (100 * i / 5) (100 * j / 5) = src.At i j := by
  have hx : 100 * i / 5 = 20 * i := by omega
  have hy : 100 * j / 5 = 20 * j := by omega
  have hxi : 20 * i < 100 := by omega
  have hyj : 20 * j < 100 := by omega
  have hsx : (2 * (20 * i) + 1) * 5 / (2 * 100) = i := by omega
  have hsy : (2 * (20 * j) + 1) * 5 / (2 * 100) = j := by omega
  rw [hx, hy]
  simp [scaleImage, RGBAImage.At, hw, hh, hxi, hyj, hsx, hsy]

/-- C5 witness: the scale invariant evaluated at `(i, j) = (2, 3)` on a
concrete 5×5 gradient image. -/
theorem scaleImage_block_structure_witness :
    (scaleImage ⟨5, 5, fun u v => ⟨u, v, u + v, 255⟩⟩ 100).At (100 * 2 / 5) (100 * 3 / 5)
      = RGBAImage.At ⟨5, 5, fun u v => ⟨u, v, u + v, 255⟩⟩ 2 3 :=
  scaleImage_block_structure ⟨5, 5, fun u v => ⟨u, v, u + v, 255⟩⟩ rfl rfl 2 3
    (by decide) (by decide)

/-- C6 counterexample: with `dimension = 0` (all other options default)
the generation fails inside PNG encoding with the encoder's
invalid-size error, which is not one of the configuration errors the
library returns eagerly, and no file write happens. -/
theorem c6_counterexample :
    (GenerateAvatar (fun _ _ => true) (fun _ => true)
        (New "abhinavsingh" [WithDimension 0]) (List.range 32)
        ⟨fun _ => false, 0⟩).1 = .error .pngSizeError
    ∧ GenError.isConfigError .pngSizeError = false
    ∧ (GenerateAvatar (fun _ _ => true) (fun _ => true)
        (New "abhinavsingh" [WithDimension 0]) (List.range 32)
        ⟨fun _ => false, 0⟩).2.1 = [] := by
  refine ⟨?_, rfl, ?_⟩ <;> rfl

/-- C6 (amended): when the output dimension is 0, generation fails —
with the PNG encoder's invalid-size error rather than a dedicated
configuration error — and the failure is returned before any
filesystem write is attempted, so no file is created. -/
theorem generateAvatar_dimension_zero (streamOf : Nat → Nat → Bool)
    (fs : String → Bool) (av : Avatar) (hash : List Nat) (g : RandState)
    (hdim : av.dimension = 0) (halgo : av.algo = 0 ∨ av.algo = 1) :
    (GenerateAvatar streamOf fs av hash g).1 = .error .pngSizeError
    ∧ (GenerateAvatar streamOf fs av hash g).2.1 = [] := by
  rcases halgo with h | h <;>
    simp [GenerateAvatar, applyAlgorithm, algoExecutorMap, h, hdim,
      pngEncode, scaleImage]

/-- C6 witness: the amended statement at the concrete default-file-mode
configuration with dimension 0. -/
theorem generateAvatar_dimension_zero_witness :
    (GenerateAvatar (fun _ _ => false) (fun _ => true)
        (New "abhinavsingh" [WithDimension 0]) (List.range 32)
        ⟨fun _ => true, 3⟩).1 = .error .pngSizeError
    ∧ (GenerateAvatar (fun _ _ => false) (fun _ => true)
        (New "abhinavsingh" [WithDimension 0]) (List.range 32)
        ⟨fun _ => true, 3⟩).2.1 = [] :=
  generateAvatar_dimension_zero (fun _ _ => false) (fun _ => true)
    (New "abhinavsingh" [WithDimension 0]) (List.range 32)
    ⟨fun _ => true, 3⟩ rfl (Or.inl rfl)

/-- C7 counterexample: the request builder accepts the unknown
algorithm identifier 7 without any rejection — the constructed Avatar
simply stores it — and generation afterwards fails mid-fill when the
registry lookup yields no executor (the nil-function panic), so the
rejection is not eager. -/
theorem c7_counterexample :
    (New "abhinavsingh" [WithAlgorithm 7]).algo = 7
    ∧ algoExecutorMap 7 = none
    ∧ (GenerateAvatar (fun _ _ => true) (fun _ => true)
        (New "abhinavsingh" [WithAlgorithm 7]) (List.range 32)
        ⟨fun _ => false, 0⟩).1 = .error .nilAlgoPanic :=
  ⟨rfl, rfl, rfl⟩

/-- C7 (amended): an unknown algorithm identifier is not rejected when
the request is built — `New`/`WithAlgorithm` store any identifier
unvalidated — and every generation with it fails mid-fill via the nil
executor obtained from the registry, not via an eager configuration
error. -/
theorem unknown_algorithm_not_rejected_eagerly (value : String) (algo : Int)
    (h0 : algo ≠ 0) (h1 : algo ≠ 1) :
    (New value [WithAlgorithm algo]).algo = algo
    ∧ algoExecutorMap algo = none
    ∧ ∀ (streamOf : Nat → Nat → Bool) (fs : String → Bool)
        (hash : List Nat) (g : RandState),
        (GenerateAvatar streamOf fs (New value [WithAlgorithm algo]) hash g).1
          = .error .nilAlgoPanic := by
  refine ⟨rfl, ?_, ?_⟩
  · simp [algoExecutorMap, h0, h1]
  · intro streamOf fs hash g
    simp [GenerateAvatar, applyAlgorithm, algoExecutorMap, h0, h1, New,
      WithAlgorithm]

/-- C7 witness: the amended statement at the concrete identifier 7. -/
theorem unknown_algorithm_not_rejected_eagerly_witness :
    (New "abhinavsingh" [WithAlgorithm 7]).algo = 7
    ∧ algoExecutorMap 7 = none
    ∧ ∀ (streamOf : Nat → Nat → Bool) (fs : String → Bool)
        (hash : List Nat) (g : RandState),
        (GenerateAvatar streamOf fs (New "abhinavsingh" [WithAlgorithm 7]) hash g).1
          = .error .nilAlgoPanic :=
  unknown_algorithm_not_rejected_eagerly "abhinavsingh" 7 (by decide) (by decide)

/-- C8: the generation result is exclusive — in file mode (and with the
file creation succeeding) the result carries the path
`outputDir/avatar.png` and a nil buffer, with that single file written;
in buffer mode it carries the encoded bytes and an empty path with no
filesystem interaction; an unrecognized output mode yields
`ErrUnknownOutputType` with no result and no file write. -/
theorem generateAvatar_result_exclusive (streamOf : Nat → Nat → Bool)
    (fs : String → Bool) (av : Avatar) (hash : List Nat) (g : RandState)
    (halgo : av.algo = 0 ∨ av.algo = 1) (hdim : 0 < av.dimension) :
    (av.outputType = 0 → fs (joinPath av.path defaultFileName) = true →
      ∃ buf, (GenerateAvatar streamOf fs av hash g).1
          = .ok ⟨joinPath av.path defaultFileName, none⟩
        ∧ (GenerateAvatar streamOf fs av hash g).2.1
          = [(joinPath av.path defaultFileName, buf)])
    ∧ (av.outputType = 1 →
      ∃ buf, (GenerateAvatar streamOf fs av hash g).1 = .ok ⟨"", some buf⟩
        ∧ (GenerateAvatar streamOf fs av hash g).2.1 = [])
    ∧ (av.outputType ≠ 0 → av.outputType ≠ 1 →
      (GenerateAvatar streamOf fs av hash g).1 = .error .errUnknownOutputType
        ∧ (GenerateAvatar streamOf fs av hash g).2.1 = []) := by
  have hd1 : av.dimension ≠ 0 := by omega
  refine ⟨?_, ?_, ?_⟩
  · intro hout hfs
    rcases halgo with h | h <;>
      simp [GenerateAvatar, applyAlgorithm, algoExecutorMap, h, hout, hfs,
        pngEncode, scaleImage, hd1]
  · intro hout
    rcases halgo with h | h <;>
      simp [GenerateAvatar, applyAlgorithm, algoExecutorMap, h, hout,
        pngEncode, scaleImage, hd1]
  · intro hout0 hout1
    rcases halgo with h | h <;>
      simp [GenerateAvatar, applyAlgorithm, algoExecutorMap, h, hout0, hout1,
        pngEncode, scaleImage, hd1]

/-- C8 witness: the exclusivity statement at a concrete file-mode
configuration. -/
theorem generateAvatar_result_exclusive_witness :
    ((New "abhinavsingh" [WithOutputDir "icons"]).outputType = 0 →
      (fun _ => true) (joinPath (New "abhinavsingh" [WithOutputDir "icons"]).path defaultFileName) = true →
      ∃ buf, (GenerateAvatar (fun _ _ => true) (fun _ => true)
          (New "abhinavsingh" [WithOutputDir "icons"]) (List.range 32)
          ⟨fun _ => false, 0⟩).1
        = .ok ⟨joinPath (New "abhinavsingh" [WithOutputDir "icons"]).path defaultFileName, none⟩
        ∧ (GenerateAvatar (fun _ _ => true) (fun _ => true)
          (New "abhinavsingh" [WithOutputDir "icons"]) (List.range 32)
          ⟨fun _ => false, 0⟩).2.1
        = [(joinPath (New "abhinavsingh" [WithOutputDir "icons"]).path defaultFileName, buf)])
    ∧ ((New "abhinavsingh" [WithOutputDir "icons"]).outputType = 1 →
      ∃ buf, (GenerateAvatar (fun _ _ => true) (fun _ => true)
          (New "abhinavsingh" [WithOutputDir "icons"]) (List.range 32)
          ⟨fun _ => false, 0⟩).1 = .ok ⟨"", some buf⟩
        ∧ (GenerateAvatar (fun _ _ => true) (fun _ => true)
          (New "abhinavsingh" [WithOutputDir "icons"]) (List.range 32)
          ⟨fun _ => false, 0⟩).2.1 = [])
    ∧ ((New "abhinavsingh" [WithOutputDir "icons"]).outputType ≠ 0 →
      (New "abhinavsingh" [WithOutputDir "icons"]).outputType ≠ 1 →
      (GenerateAvatar (fun _ _ => true) (fun _ => true)
          (New "abhinavsingh" [WithOutputDir "icons"]) (List.range 32)
          ⟨fun _ => false, 0⟩).1 = .error .errUnknownOutputType
        ∧ (GenerateAvatar (fun _ _ => true) (fun _ => true)
          (New "abhinavsingh" [WithOutputDir "icons"]) (List.range 32)
          ⟨fun _ => false, 0⟩).2.1 = []) :=
  generateAvatar_result_exclusive (fun _ _ => true) (fun _ => true)
    (New "abhinavsingh" [WithOutputDir "icons"]) (List.range 32)
    ⟨fun _ => false, 0⟩ (Or.inl rfl) (by decide)

/-! ## Loop characterization of the fill algorithms -/

/-- Unrolling a fold over `List.range (n+1)` at its last element. -/
theorem foldl_range_succ {α : Type} (f : α → Nat → α) (b : α) (n : Nat) :
    (List.range (n + 1)).foldl f b = f ((List.range n).foldl f b) n := by
  rw [List.range_succ, List.foldl_append, List.foldl_cons, List.foldl_nil]

/-- Unrolling a fold over the reversed `List.range (n+1)` at its first
element. -/
theorem foldl_range_reverse_succ {α : Type} (f : α → Nat → α) (b : α) (n : Nat) :
    ((List.range (n + 1)).reverse).foldl f b = ((List.range n).reverse).foldl f (f b n) := by
  rw [List.range_succ, List.reverse_append, List.reverse_singleton, List.singleton_append,
    List.foldl_cons]

/-- `At` on a literal square image. -/
theorem At_mk (n : Nat) (f : Nat → Nat → Rgba) (x y : Nat) :
    RGBAImage.At ⟨n, n, f⟩ x y = if x < n ∧ y < n then f x y else zeroColor := rfl

/-- `Set` on a literal square image, in-bounds case. -/
theorem Set_mk_inbounds (n : Nat) (p : Nat → Nat → Rgba) (x y : Nat) (c : Rgba)
    (hx : x < n) (hy : y < n) :
    RGBAImage.Set ⟨n, n, p⟩ x y c =
      ⟨n, n, fun u v => if u = x ∧ v = y then c else p u v⟩ := by
  simp [RGBAImage.Set, hx, hy]

/-- `Set` on a literal square image, out-of-bounds case: a no-op. -/
theorem Set_mk_oob (n : Nat) (p : Nat → Nat → Rgba) (x y : Nat) (c : Rgba)
    (h : ¬ (x < n ∧ y < n)) :
    RGBAImage.Set ⟨n, n, p⟩ x y c = ⟨n, n, p⟩ := by
  simp only [RGBAImage.Set]
  rw [if_neg h]

/-- `At` on a literal square image, in-bounds case. -/
theorem At_mk_inbounds (n : Nat) (p : Nat → Nat → Rgba) (x y : Nat)
    (hx : x < n) (hy : y < n) :
    RGBAImage.At ⟨n, n, p⟩ x y = p x y := by
  simp [RGBAImage.At, hx, hy]

/-- Pointwise pixel equality of literal square images. -/
theorem imgmk_eq (n : Nat) (f g : Nat → Nat → Rgba) (h : ∀ u v, f u v = g u v) :
    (⟨n, n, f⟩ : RGBAImage) = ⟨n, n, g⟩ := by
  have hfg : f = g := funext fun u => funext fun v => h u v
  rw [hfg]

/-- Componentwise equality of fill-loop states. -/
theorem st_eq (img₁ img₂ : RGBAImage) (r₁ r₂ : RandState)
    (h₁ : img₁ = img₂) (h₂ : r₁ = r₂) : (img₁, r₁) = (img₂, r₂) := by
  rw [h₁, h₂]

/-- A drawing row of `algorithm_one` (`y ≤ n/2`): the first `m` columns
write the successive draws into the pixels with first coordinate `y`,
consuming `m` draws. -/
theorem algOneRow_draw (n : Nat) (cF : Rgba) (dm : Bool) (y : Nat)
    (hy : y ≤ n / 2) (hyn : y < n) (p : Nat → Nat → Rgba) (s : Nat → Bool) (k : Nat) :
    ∀ m, m ≤ n →
      (List.range m).foldl (algOneCell n cF dm y) (⟨n, n, p⟩, ⟨s, k⟩) =
      (⟨n, n, fun u v => if u = y ∧ v < m then
          (if s (k + v) then cF else getBackgroundColor dm) else p u v⟩,
       ⟨s, k + m⟩) := by
  intro m
  induction m with
  | zero =>
    intro _
    simp only [List.range_zero, List.foldl_nil]
    refine st_eq _ _ _ _ (imgmk_eq n _ _ ?_) rfl
    intro u v
    simp
  | succ m ih =>
    intro hm1
    have hm : m ≤ n := Nat.le_of_succ_le hm1
    have hmn : m < n := by omega
    rw [foldl_range_succ, ih hm]
    unfold algOneCell
    rw [if_pos hy]
    simp only [randDraw]
    rw [Set_mk_inbounds n _ y m _ hyn hmn]
    refine st_eq _ _ _ _ (imgmk_eq n _ _ ?_) rfl
    intro u v
    by_cases hu : u = y
    · subst hu
      by_cases hv : v = m
      · subst hv
        simp
      · by_cases hv2 : v < m
        · have hv3 : v < m + 1 := by omega
          simp [hv, hv2, hv3]
        · have hv3 : ¬ v < m + 1 := by omega
          simp [hv, hv2, hv3]
    · simp [hu]

/-- A mirroring row of `algorithm_one` (`n/2 < y < n`): the first `m`
columns copy the pixels of the reflected first coordinate `n-1-y`,
consuming no draws. -/
theorem algOneRow_mirror (n : Nat) (cF : Rgba) (dm : Bool) (y : Nat)
    (hy : n / 2 < y) (hyn : y < n) (p : Nat → Nat → Rgba) (r : RandState) :
    ∀ m, m ≤ n →
      (List.range m).foldl (algOneCell n cF dm y) (⟨n, n, p⟩, r) =
      (⟨n, n, fun u v => if u = y ∧ v < m then p (n - 1 - y) v else p u v⟩, r) := by
  intro m
  induction m with
  | zero =>
    intro _
    simp only [List.range_zero, List.foldl_nil]
    refine st_eq _ _ _ _ (imgmk_eq n _ _ ?_) rfl
    intro u v
    simp
  | succ m ih =>
    intro hm1
    have hm : m ≤ n := Nat.le_of_succ_le hm1
    have hmn : m < n := by omega
    have hrefl : n - y - 1 < n := by omega
    have hney : ¬ (n - y - 1 = y ∧ m < m) := by omega
    have hid : n - y - 1 = n - 1 - y := by omega
    rw [foldl_range_succ, ih hm]
    unfold algOneCell
    rw [if_neg (by omega : ¬ y ≤ n / 2)]
    rw [At_mk_inbounds n _ _ m hrefl hmn]
    rw [if_neg hney]
    rw [Set_mk_inbounds n _ y m _ hyn hmn]
    refine st_eq _ _ _ _ (imgmk_eq n _ _ ?_) rfl
    intro u v
    rw [hid]
    by_cases hu : u = y
    · subst hu
      by_cases hv : v = m
      · subst hv
        simp
      · by_cases hv2 : v < m
        · have hv3 : v < m + 1 := by omega
          simp [hv, hv2, hv3]
        · have hv3 : ¬ v < m + 1 := by omega
          simp [hv, hv2, hv3]
    · simp [hu]

/-- The first `m` rows of `algorithm_one` on a fresh `n × n` image:
slices with first coordinate below `m` hold their final values and the
generator has advanced by `n` draws per drawing row. -/
theorem algorithm_one_loop (n : Nat) (cF : Rgba) (dm : Bool) (s : Nat → Bool) (k : Nat) :
    ∀ m, m ≤ n →
      (List.range m).foldl (algOneRow n n cF dm) (newRGBA n, ⟨s, k⟩) =
      (⟨n, n, fun u v => if u < m ∧ v < n then
          algOneExpect n cF (getBackgroundColor dm) s k u v else zeroColor⟩,
       ⟨s, k + n * min m (n / 2 + 1)⟩) := by
  intro m
  induction m with
  | zero =>
    intro _
    simp only [List.range_zero, List.foldl_nil]
    refine st_eq _ _ _ _ (imgmk_eq n _ _ ?_) rfl
    intro u v
    simp [newRGBA]
  | succ m ih =>
    intro hm1
    have hm : m ≤ n := Nat.le_of_succ_le hm1
    have hmn : m < n := by omega
    rw [foldl_range_succ, ih hm]
    by_cases hcase : m ≤ n / 2
    · have hmin : min m (n / 2 + 1) = m := by omega
      have hmin1 : min (m + 1) (n / 2 + 1) = m + 1 := by omega
      rw [hmin]
      unfold algOneRow
      rw [algOneRow_draw n cF dm m hcase hmn _ s (k + n * m) n le_rfl]
      refine st_eq _ _ _ _ (imgmk_eq n _ _ ?_) ?_
      · intro u v
        by_cases hu : u = m
        · by_cases hv : v < n
          · have h1 : m < m + 1 := by omega
            have harith : k + n * m + v = k + (m * n + v) := by ring
            simp [hu, hv, h1, algOneExpect, hcase, harith]
          · have h2 : ¬ (m < m ∧ v < n) := by omega
            have h3 : ¬ (m < m + 1 ∧ v < n) := by omega
            simp [hu, hv, h2, h3]
        · by_cases hu2 : u < m
          · have h4 : u < m + 1 := by omega
            simp [hu, hu2, h4]
          · have h5 : ¬ u < m := hu2
            have h6 : ¬ u < m + 1 := by omega
            simp [hu, h5, h6]
      · rw [hmin1]
        have : k + n * m + n = k + n * (m + 1) := by ring
        rw [this]
    · have hy : n / 2 < m := by omega
      have hmin : min m (n / 2 + 1) = n / 2 + 1 := by omega
      have hmin1 : min (m + 1) (n / 2 + 1) = n / 2 + 1 := by omega
      rw [hmin, hmin1]
      unfold algOneRow
      rw [algOneRow_mirror n cF dm m hy hmn _ _ n le_rfl]
      refine st_eq _ _ _ _ (imgmk_eq n _ _ ?_) rfl
      intro u v
      by_cases hu : u = m
      · by_cases hv : v < n
        · have h1 : m < m + 1 := by omega
          have hrm : n - 1 - m < m := by omega
          have hrn : n - 1 - m < n := by omega
          have hrh : n - 1 - m ≤ n / 2 := by omega
          have hnh : ¬ m ≤ n / 2 := by omega
          simp [hu, hv, h1, hrm, hrn, algOneExpect, hrh, hnh]
        · have h2 : ¬ (m < m ∧ v < n) := by omega
          have h3 : ¬ (m < m + 1 ∧ v < n) := by omega
          simp [hu, hv, h2, h3]
      · by_cases hu2 : u < m
        · have h4 : u < m + 1 := by omega
          simp [hu, hu2, h4]
        · have h6 : ¬ u < m + 1 := by omega
          simp [hu, hu2, h6]

/-- Closed-form characterization of `algorithm_one` on a fresh `n × n`
image: every pixel is given by `algOneExpect` and exactly
`n * (n/2 + 1)` draws are consumed. -/
theorem algorithm_one_spec (n : Nat) (cF : Rgba) (dm : Bool) (s : Nat → Bool)
    (k : Nat) (hn : 1 ≤ n) :
    algorithm_one (newRGBA n) n cF dm ⟨s, k⟩ =
    (⟨n, n, fun u v => if u < n ∧ v < n then
        algOneExpect n cF (getBackgroundColor dm) s k u v else zeroColor⟩,
     ⟨s, k + n * (n / 2 + 1)⟩) := by
  have hmin : min n (n / 2 + 1) = n / 2 + 1 := by omega
  have h := algorithm_one_loop n cF dm s k n le_rfl
  rw [hmin] at h
  exact h

/-- An in-bounds row of `algorithm_two` (`y < n`): the first `m`
columns write row `y`; columns up to `n/2` hold successive draws,
the rest mirror the reflected column written earlier in the same row;
`min m (n/2+1)` draws are consumed. -/
theorem algTwoRow_valid (n : Nat) (cF : Rgba) (dm : Bool) (y : Nat)
    (hyn : y < n) (p : Nat → Nat → Rgba) (s : Nat → Bool) (k : Nat) :
    ∀ m, m ≤ n →
      (List.range m).foldl (algTwoCell n cF dm y) (⟨n, n, p⟩, ⟨s, k⟩) =
      (⟨n, n, fun u v => if v = y ∧ u < m then
          (if u ≤ n / 2 then (if s (k + u) then cF else getBackgroundColor dm)
           else (if s (k + (n - 1 - u)) then cF else getBackgroundColor dm))
        else p u v⟩,
       ⟨s, k + min m (n / 2 + 1)⟩) := by
  intro m
  induction m with
  | zero =>
    intro _
    simp only [List.range_zero, List.foldl_nil]
    refine st_eq _ _ _ _ (imgmk_eq n _ _ ?_) rfl
    intro u v
    simp
  | succ m ih =>
    intro hm1
    have hm : m ≤ n := Nat.le_of_succ_le hm1
    have hmn : m < n := by omega
    rw [foldl_range_succ, ih hm]
    by_cases hcase : m ≤ n / 2
    · have hmin : min m (n / 2 + 1) = m := by omega
      have hmin1 : min (m + 1) (n / 2 + 1) = m + 1 := by omega
      rw [hmin, hmin1]
      unfold algTwoCell
      rw [if_pos hcase]
      simp only [randDraw]
      rw [Set_mk_inbounds n _ m y _ hmn hyn]
      refine st_eq _ _ _ _ (imgmk_eq n _ _ ?_) rfl
      intro u v
      by_cases hv : v = y
      · by_cases hu : u = m
        · have h1 : m < m + 1 := by omega
          simp [hu, hv, h1, hcase]
        · by_cases hu2 : u < m
          · have h3 : u < m + 1 := by omega
            simp [hu, hv, hu2, h3]
          · have h4 : ¬ u < m + 1 := by omega
            simp [hu, hv, hu2, h4]
      · simp [hv]
    · have hy2 : n / 2 < m := by omega
      have hmin : min m (n / 2 + 1) = n / 2 + 1 := by omega
      have hmin1 : min (m + 1) (n / 2 + 1) = n / 2 + 1 := by omega
      have hrm : n - m - 1 < m := by omega
      have hrn : n - m - 1 < n := by omega
      have hrh : n - m - 1 ≤ n / 2 := by omega
      have hid : n - m - 1 = n - 1 - m := by omega
      rw [hmin, hmin1]
      unfold algTwoCell
      rw [if_neg hcase]
      rw [At_mk_inbounds n _ _ y hrn hyn]
      rw [if_pos ⟨rfl, hrm⟩, if_pos hrh]
      rw [Set_mk_inbounds n _ m y _ hmn hyn]
      refine st_eq _ _ _ _ (imgmk_eq n _ _ ?_) rfl
      intro u v
      by_cases hv : v = y
      · by_cases hu : u = m
        · have h1 : m < m + 1 := by omega
          simp [hu, hv, h1, hcase, hid]
        · by_cases hu2 : u < m
          · have h3 : u < m + 1 := by omega
            simp [hu, hv, hu2, h3]
          · have h4 : ¬ u < m + 1 := by omega
            simp [hu, hv, hu2, h4]
      · simp [hv]

/-- The out-of-bounds first row of `algorithm_two` (`y = n`): every
write is a no-op, yet the columns up to `n/2` still consume draws. -/
theorem algTwoRow_oob (n : Nat) (cF : Rgba) (dm : Bool)
    (p : Nat → Nat → Rgba) (s : Nat → Bool) (k : Nat) :
    ∀ m, m ≤ n →
      (List.range m).foldl (algTwoCell n cF dm n) (⟨n, n, p⟩, ⟨s, k⟩) =
      (⟨n, n, p⟩, ⟨s, k + min m (n / 2 + 1)⟩) := by
  intro m
  induction m with
  | zero =>
    intro _
    simp only [List.range_zero, List.foldl_nil]
    rfl
  | succ m ih =>
    intro hm1
    have hm : m ≤ n := Nat.le_of_succ_le hm1
    have hoob : ¬ (m < n ∧ n < n) := by omega
    rw [foldl_range_succ, ih hm]
    by_cases hcase : m ≤ n / 2
    · have hmin : min m (n / 2 + 1) = m := by omega
      have hmin1 : min (m + 1) (n / 2 + 1) = m + 1 := by omega
      rw [hmin, hmin1]
      unfold algTwoCell
      rw [if_pos hcase]
      simp only [randDraw]
      rw [Set_mk_oob n _ m n _ hoob]
      rfl
    · have hmin : min m (n / 2 + 1) = n / 2 + 1 := by omega
      have hmin1 : min (m + 1) (n / 2 + 1) = n / 2 + 1 := by omega
      rw [hmin, hmin1]
      unfold algTwoCell
      rw [if_neg hcase]
      rw [Set_mk_oob n _ m n _ hoob]

/-- Unfolding one application of `algTwoRow`. -/
theorem algTwoRow_applied (n : Nat) (cF : Rgba) (dm : Bool) (y : Nat)
    (st : RGBAImage × RandState) :
    algTwoRow n n cF dm st y = (List.range n).foldl (algTwoCell n cF dm y) st := rfl

/-- The downward row loop of `algorithm_two` from row `t` to row `0`:
starting from an image whose rows above `t` already hold their final
values and with `(n - t)` rows' worth of draws consumed, it finishes
the whole picture. -/
theorem algorithm_two_loop (n : Nat) (cF : Rgba) (dm : Bool) (s : Nat → Bool)
    (k : Nat) (hn : 1 ≤ n) :
    ∀ t, t < n →
      ((List.range (t + 1)).reverse).foldl (algTwoRow n n cF dm)
        (⟨n, n, fun u v => if u < n ∧ v < n ∧ t < v then
            algTwoExpect n cF (getBackgroundColor dm) s k u v else zeroColor⟩,
         ⟨s, k + (n - t) * (n / 2 + 1)⟩) =
      (⟨n, n, fun u v => if u < n ∧ v < n then
          algTwoExpect n cF (getBackgroundColor dm) s k u v else zeroColor⟩,
       ⟨s, k + (n + 1) * (n / 2 + 1)⟩) := by
  intro t
  induction t with
  | zero =>
    intro _
    rw [foldl_range_reverse_succ]
    simp only [List.range_zero, List.reverse_nil, List.foldl_nil, Nat.sub_zero]
    rw [algTwoRow_applied n cF dm 0 _]
    rw [algTwoRow_valid n cF dm 0 hn _ s (k + n * (n / 2 + 1)) n le_rfl]
    refine st_eq _ _ _ _ (imgmk_eq n _ _ ?_) ?_
    · intro u v
      by_cases hv : v = 0
      · by_cases hu : u < n
        · have hvn : (0 : Nat) < n := hn
          have ha1 : k + n * (n / 2 + 1) + u = k + (n * (n / 2 + 1) + u) := by ring
          have ha2 : k + n * (n / 2 + 1) + (n - 1 - u) =
              k + (n * (n / 2 + 1) + (n - 1 - u)) := by ring
          simp [hv, hu, hvn, algTwoExpect, ha1, ha2]
        · simp [hv, hu]
      · have hcond : (u < n ∧ v < n ∧ 0 < v) ↔ (u < n ∧ v < n) := by omega
        simp [hv, hcond]
    · rw [show min n (n / 2 + 1) = n / 2 + 1 from by omega]
      rw [show (n + 1) * (n / 2 + 1) = n * (n / 2 + 1) + (n / 2 + 1) from by ring]
      rw [Nat.add_assoc]
  | succ t ih =>
    intro ht
    have htn : t < n := by omega
    rw [foldl_range_reverse_succ]
    rw [algTwoRow_applied n cF dm (t + 1) _]
    rw [algTwoRow_valid n cF dm (t + 1) ht _ s (k + (n - (t + 1)) * (n / 2 + 1)) n le_rfl]
    have himg : (⟨n, n, fun u v => if v = t + 1 ∧ u < n then
          (if u ≤ n / 2 then
            (if s (k + (n - (t + 1)) * (n / 2 + 1) + u) then cF else getBackgroundColor dm)
           else
            (if s (k + (n - (t + 1)) * (n / 2 + 1) + (n - 1 - u)) then cF
             else getBackgroundColor dm))
        else (if u < n ∧ v < n ∧ t + 1 < v then
          algTwoExpect n cF (getBackgroundColor dm) s k u v else zeroColor)⟩ : RGBAImage) =
        ⟨n, n, fun u v => if u < n ∧ v < n ∧ t < v then
          algTwoExpect n cF (getBackgroundColor dm) s k u v else zeroColor⟩ := by
      refine imgmk_eq n _ _ ?_
      intro u v
      by_cases hv : v = t + 1
      · by_cases hu : u < n
        · have hvn : v < n := by omega
          have htv : t < v := by omega
          have ha1 : k + (n - (t + 1)) * (n / 2 + 1) + u =
              k + ((n - (t + 1)) * (n / 2 + 1) + u) := by ring
          have ha2 : k + (n - (t + 1)) * (n / 2 + 1) + (n - 1 - u) =
              k + ((n - (t + 1)) * (n / 2 + 1) + (n - 1 - u)) := by ring
          simp [hv, hu, ht, hvn, htv, algTwoExpect, ha1, ha2]
        · simp [hv, hu]
      · have hcond : (u < n ∧ v < n ∧ t + 1 < v) ↔ (u < n ∧ v < n ∧ t < v) := by omega
        simp [hv, hcond]
    have hpos : k + (n - (t + 1)) * (n / 2 + 1) + min n (n / 2 + 1) =
        k + (n - t) * (n / 2 + 1) := by
      rw [show min n (n / 2 + 1) = n / 2 + 1 from by omega]
      rw [show n - t = (n - (t + 1)) + 1 from by omega]
      ring
    rw [himg, hpos]
    exact ih htn

/-- Closed-form characterization of `algorithm_two` on a fresh `n × n`
image: every pixel is given by `algTwoExpect` and exactly
`(n + 1) * (n/2 + 1)` draws are consumed — the extra `n/2 + 1` draws
come from the out-of-bounds first row `y = n`. -/
theorem algorithm_two_spec (n : Nat) (cF : Rgba) (dm : Bool) (s : Nat → Bool)
    (k : Nat) (hn : 1 ≤ n) :
    algorithm_two (newRGBA n) n cF dm ⟨s, k⟩ =
    (⟨n, n, fun u v => if u < n ∧ v < n then
        algTwoExpect n cF (getBackgroundColor dm) s k u v else zeroColor⟩,
     ⟨s, k + (n + 1) * (n / 2 + 1)⟩) := by
  show ((List.range (n + 1)).reverse).foldl (algTwoRow n n cF dm)
      (newRGBA n, ⟨s, k⟩) = _
  rw [foldl_range_reverse_succ]
  rw [algTwoRow_applied n cF dm n _]
  rw [show (newRGBA n) = (⟨n, n, fun _ _ => zeroColor⟩ : RGBAImage) from rfl]
  rw [algTwoRow_oob n cF dm (fun _ _ => zeroColor) s k n le_rfl]
  rw [show min n (n / 2 + 1) = n / 2 + 1 from by omega]
  have h := algorithm_two_loop n cF dm s k hn (n - 1) (by omega)
  rw [show n - 1 + 1 = n from by omega] at h
  rw [show n - (n - 1) = 1 from by omega] at h
  rw [one_mul] at h
  have himg : (⟨n, n, fun u v => if u < n ∧ v < n ∧ (n - 1) < v then
      algTwoExpect n cF (getBackgroundColor dm) s k u v else zeroColor⟩ : RGBAImage) =
      ⟨n, n, fun _ _ => zeroColor⟩ := by
    refine imgmk_eq n _ _ ?_
    intro u v
    have hc : ¬ (u < n ∧ v < n ∧ (n - 1) < v) := by omega
    simp [hc]
  rw [himg] at h
  exact h

/-- C3 counterexample: on a fresh 3×3 image (so `size/2 = 1` and row 2
is in the mirrored half) with the stream that fills only the first
drawn cell, `algorithm_one` produces `pixel(0,2) ≠ pixel(0, 3-1-2)`:
the descend-mirror invariant claimed for the second coordinate fails,
because the source's `Set(y, x, …)` calls mirror the first coordinate
instead. -/
theorem c3_counterexample :
    3 / 2 < 2
    ∧ (algorithm_one (newRGBA 3) 3 ⟨1, 2, 3, 4⟩ false ⟨fun i => i == 0, 0⟩).1.At 0 2
        ≠ (algorithm_one (newRGBA 3) 3 ⟨1, 2, 3, 4⟩ false ⟨fun i => i == 0, 0⟩).1.At 0 (3 - 1 - 2) :=
  ⟨by decide, by decide⟩

/-- C3 (amended): after a fill of a fresh size×size image, both
algorithms are symmetric across the same axis — the FIRST pixel
coordinate: for every valid `(x, y)` with `x > size/2`,
`pixel(x, y) = pixel(size-1-x, y)`, for descend-mirror as well as for
ascend-mirror (the source's swapped `Set(y, x, …)` arguments in
`algorithm_one` turn its intended row mirror into the same
first-coordinate mirror). -/
theorem fill_symmetry (n : Nat) (cF : Rgba) (dm : Bool) (s : Nat → Bool)
    (k : Nat) (x y : Nat) (hx : x < n) (hy : y < n) (hhalf : n / 2 < x) :
    ((algorithm_one (newRGBA n) n cF dm ⟨s, k⟩).1.At x y
      = (algorithm_one (newRGBA n) n cF dm ⟨s, k⟩).1.At (n - 1 - x) y)
    ∧ ((algorithm_two (newRGBA n) n cF dm ⟨s, k⟩).1.At x y
      = (algorithm_two (newRGBA n) n cF dm ⟨s, k⟩).1.At (n - 1 - x) y) := by
  have hn : 1 ≤ n := by omega
  have hrx : n - 1 - x < n := by omega
  have hrh : n - 1 - x ≤ n / 2 := by omega
  have hnx : ¬ x ≤ n / 2 := by omega
  constructor
  · rw [algorithm_one_spec n cF dm s k hn]
    simp [At_mk, hx, hy, hrx, algOneExpect, hnx, hrh]
  · rw [algorithm_two_spec n cF dm s k hn]
    simp [At_mk, hx, hy, hrx, algTwoExpect, hnx, hrh]

/-- C3 witness: the amended symmetry evaluated on a 3×3 dark-mode fill
at `(x, y) = (2, 1)`. -/
theorem fill_symmetry_witness :
    ((algorithm_one (newRGBA 3) 3 ⟨9, 9, 9, 9⟩ true ⟨fun _ => true, 0⟩).1.At 2 1
      = (algorithm_one (newRGBA 3) 3 ⟨9, 9, 9, 9⟩ true ⟨fun _ => true, 0⟩).1.At (3 - 1 - 2) 1)
    ∧ ((algorithm_two (newRGBA 3) 3 ⟨9, 9, 9, 9⟩ true ⟨fun _ => true, 0⟩).1.At 2 1
      = (algorithm_two (newRGBA 3) 3 ⟨9, 9, 9, 9⟩ true ⟨fun _ => true, 0⟩).1.At (3 - 1 - 2) 1) :=
  fill_symmetry 3 ⟨9, 9, 9, 9⟩ true (fun _ => true) 0 2 1 (by decide) (by decide)
    (by decide)

/-- C4: draw counts on a fresh 5×5 fill: `algorithm_one` consumes
exactly `5 * (5/2 + 1) = 15` draws, but `algorithm_two` consumes 18 =
`(5+1) * (5/2 + 1)` draws — its row loop starts at the out-of-bounds
row `y = 5`, whose cells with `x ≤ 5/2` still draw — contradicting the
claimed total `size * (size/2 + 1)` for both algorithms. -/
theorem draw_count_size5 :
    (algorithm_one (newRGBA 5) 5 ⟨7, 7, 7, 7⟩ false ⟨fun _ => true, 0⟩).2.pos
      = 5 * (5 / 2 + 1)
    ∧ (algorithm_two (newRGBA 5) 5 ⟨7, 7, 7, 7⟩ false ⟨fun _ => true, 0⟩).2.pos = 18
    ∧ 18 ≠ 5 * (5 / 2 + 1) :=
  ⟨rfl, rfl, by decide⟩

/-- C9: `getBackgroundColor` yields opaque black in dark mode and
opaque white otherwise, and after a fill of a fresh size×size image by
either algorithm every in-bounds pixel is either the fill color or
that background color — hence every non-fill pixel equals the
background. -/
theorem background_correctness (n : Nat) (cF : Rgba) (dm : Bool)
    (s : Nat → Bool) (k : Nat) (x y : Nat) (hx : x < n) (hy : y < n) :
    getBackgroundColor true = colorBlack
    ∧ getBackgroundColor false = colorWhite
    ∧ ((algorithm_one (newRGBA n) n cF dm ⟨s, k⟩).1.At x y = cF
        ∨ (algorithm_one (newRGBA n) n cF dm ⟨s, k⟩).1.At x y = getBackgroundColor dm)
    ∧ ((algorithm_two (newRGBA n) n cF dm ⟨s, k⟩).1.At x y = cF
        ∨ (algorithm_two (newRGBA n) n cF dm ⟨s, k⟩).1.At x y = getBackgroundColor dm) := by
  have hn : 1 ≤ n := by omega
  refine ⟨rfl, rfl, ?_, ?_⟩
  · rw [algorithm_one_spec n cF dm s k hn]
    simp only [At_mk]
    simp [hx, hy, algOneExpect]
    split_ifs <;> simp
  · rw [algorithm_two_spec n cF dm s k hn]
    simp only [At_mk]
    simp [hx, hy, algTwoExpect]
    split_ifs <;> simp

/-- C9 witness: background correctness evaluated on a 2×2 light-mode
fill at pixel `(1, 0)`. -/
theorem background_correctness_witness :
    getBackgroundColor true = colorBlack
    ∧ getBackgroundColor false = colorWhite
    ∧ ((algorithm_one (newRGBA 2) 2 ⟨1, 1, 1, 1⟩ false ⟨fun _ => false, 5⟩).1.At 1 0 = ⟨1, 1, 1, 1⟩
        ∨ (algorithm_one (newRGBA 2) 2 ⟨1, 1, 1, 1⟩ false ⟨fun _ => false, 5⟩).1.At 1 0 = getBackgroundColor false)
    ∧ ((algorithm_two (newRGBA 2) 2 ⟨1, 1, 1, 1⟩ false ⟨fun _ => false, 5⟩).1.At 1 0 = ⟨1, 1, 1, 1⟩
        ∨ (algorithm_two (newRGBA 2) 2 ⟨1, 1, 1, 1⟩ false ⟨fun _ => false, 5⟩).1.At 1 0 = getBackgroundColor false) :=
  background_correctness 2 ⟨1, 1, 1, 1⟩ false (fun _ => false) 5 1 0 (by decide)
    (by decide)

/-- C10: the first iteration of `algorithm_two`'s row loop runs at
`y = size`, one past the last valid row: every pixel write there is a
no-op (so the row leaves any size×size image unchanged), the whole
fill equals the fill over rows `size-1 … 0` alone (started after the
`size/2 + 1` draws the phantom row consumes), and no memory outside
the image is ever modified — the fill is safe for every size ≥ 1. -/
theorem algorithm_two_row_n_harmless (n : Nat) (cF : Rgba) (dm : Bool)
    (s : Nat → Bool) (k : Nat) (hn : 1 ≤ n) :
    (∀ (img : RGBAImage) (r : RandState), img.width = n → img.height = n →
        (algTwoRow n n cF dm (img, r) n).1 = img)
    ∧ algorithm_two (newRGBA n) n cF dm ⟨s, k⟩ =
        ((List.range n).reverse).foldl (algTwoRow n n cF dm)
          (newRGBA n, ⟨s, k + (n / 2 + 1)⟩)
    ∧ (∀ x y, n ≤ x ∨ n ≤ y →
        (algorithm_two (newRGBA n) n cF dm ⟨s, k⟩).1.pix x y = zeroColor) := by
  refine ⟨?_, ?_, ?_⟩
  · intro img r hw hh
    obtain ⟨w, h, p⟩ := img
    obtain ⟨sr, kr⟩ := r
    have hw' : w = n := hw
    have hh' : h = n := hh
    rw [hw', hh']
    rw [algTwoRow_applied n cF dm n _]
    rw [algTwoRow_oob n cF dm p sr kr n le_rfl]
  · show ((List.range (n + 1)).reverse).foldl (algTwoRow n n cF dm)
        (newRGBA n, ⟨s, k⟩) = _
    rw [show (newRGBA n) = (⟨n, n, fun _ _ => zeroColor⟩ : RGBAImage) from rfl]
    rw [foldl_range_reverse_succ]
    rw [algTwoRow_applied n cF dm n _]
    rw [algTwoRow_oob n cF dm (fun _ _ => zeroColor) s k n le_rfl]
    rw [show min n (n / 2 + 1) = n / 2 + 1 from by omega]
  · intro x y hxy
    rw [algorithm_two_spec n cF dm s k hn]
    have hc : ¬ (x < n ∧ y < n) := by omega
    simp [hc]

/-- C10 witness: the out-of-bounds-row facts evaluated at size 1. -/
theorem algorithm_two_row_n_harmless_witness :
    (∀ (img : RGBAImage) (r : RandState), img.width = 1 → img.height = 1 →
        (algTwoRow 1 1 ⟨2, 2, 2, 2⟩ false (img, r) 1).1 = img)
    ∧ algorithm_two (newRGBA 1) 1 ⟨2, 2, 2, 2⟩ false ⟨fun _ => true, 0⟩ =
        ((List.range 1).reverse).foldl (algTwoRow 1 1 ⟨2, 2, 2, 2⟩ false)
          (newRGBA 1, ⟨fun _ => true, 0 + (1 / 2 + 1)⟩)
    ∧ (∀ x y, 1 ≤ x ∨ 1 ≤ y →
        (algorithm_two (newRGBA 1) 1 ⟨2, 2, 2, 2⟩ false ⟨fun _ => true, 0⟩).1.pix x y
          = zeroColor) :=
  algorithm_two_row_n_harmless 1 ⟨2, 2, 2, 2⟩ false (fun _ => true) 0 (by decide)
